import Mathlib

/-!
Verification development for the puzzle-web page-tree routing and
template-dispatch core (Go sources: `common/common.go`, the page/static-widget
file, `web.go`).

Modelling conventions:
* Go strings are byte arrays; every path handled here is ASCII, so a Go string
  is embedded as a Lean `String` and byte indexing/slicing coincides with
  character indexing/slicing on `String.data`.
* Machine integers (`uint64`, `uint8`) are embedded as `Nat`, with an explicit
  `% 2 ^ 64` wherever Go arithmetic can overflow.
* Code that can panic (out-of-range indexing) is embedded with `Option`:
  `none` models the panic.
* Stateful code (mutation of the `gin.H` data bag, mutation of the page tree
  through the `*staticWidget` pointer) is embedded by explicit state passing:
  a mutating function returns the updated value.
* I/O side effects of a handler (rendering a template, issuing an HTTP
  redirect) are reified in the `HandlerEffect` type; logging and tracing-span
  bookkeeping are not observable in the claims and are not modelled.
-/

namespace PuzzleWeb

/-! ## HTTP status constants (net/http) -/

def statusOK : Nat := 200

def statusFound : Nat := 302

/-! ## Base-URL / path algebra (`common/common.go`)

`GetCurrentUrl` reads `c.Request.URL.Path`; the path is embedded as a
`List Char`.  The Go code indexes `path[len(path)-1]`, which panics on an
empty path, hence the `Option`. -/

def getCurrentUrl (path : List Char) : Option (List Char) :=
  match path.getLast? with
  | none => none
  | some c => if c = '/' then some path else some (path ++ ['/'])

/-- The backward-walking loop of `GetBaseUrl`: starting at index `i`
(initially `len(res)-1`), repeatedly decrement `i` and count the `'/'`
characters seen, until `count` reaches `levelToErase`; return the final `i`.
Decrementing past index `0` models Go's out-of-range read (`res[-1]`) as
`none`. -/
def getBaseUrlLoop (res : List Char) (level : Nat) : Nat → Nat → Option Nat
  | count, 0 => if level ≤ count then some 0 else none
  | count, i + 1 =>
    if level ≤ count then some (i + 1)
    else if res[i]? = some '/' then getBaseUrlLoop res level (count + 1) i
    else getBaseUrlLoop res level count i

/-- `GetBaseUrl(levelToErase, c)`: normalize the current path to end with
`'/'`, walk backward consuming `levelToErase` separators, and keep the prefix
up to and including the separator reached. -/
def getBaseUrl (level : Nat) (path : List Char) : Option (List Char) :=
  (getCurrentUrl path).bind fun res =>
    (getBaseUrlLoop res level 0 (res.length - 1)).map fun i => res.take (i + 1)

/-- The scan performed by the `GetBaseUrl` loop, restated structurally on the
reversed normalized path with the unexamined final character removed: drop
characters until the `level`-th `'/'` is reached, and keep the remainder
(whose reversal is the prefix `res[:i+1]` the loop returns).  `none` models
the loop running past index 0.  The agreement with `getBaseUrlLoop` is proved
in `loop_eq_backErase`. -/
def backErase : Nat → List Char → Option (List Char)
  | _, [] => none
  | level, c :: t =>
    if c = '/' then
      if level ≤ 1 then some (c :: t) else backErase (level - 1) t
    else backErase level t

/-! ## Redirect handlers (`common/common.go`) -/

/-- `checkTarget`: an empty redirect target is replaced by the site root. -/
def checkTarget (target : String) : String :=
  if target = "" then "/" else target

/-- A value of the data bag (`gin.H` maps strings to arbitrary values; the
claims only ever read numeric, string and boolean entries). -/
inductive Val where
  | nat (n : Nat)
  | str (s : String)
  | bool (b : Bool)
deriving DecidableEq

/-- The request-scoped data bag (`gin.H`), embedded as an association list. -/
abbrev DataBag := List (String × Val)

/-- The right actions of the admin service (`adminservice.Action*`). -/
inductive RightAction where
  | access
  | create
  | update
  | delete
deriving DecidableEq

/-- The per-request context: the slice of `*gin.Context` and of the external
collaborators (locale manager, authorization service, registered default-data
adders) that the embedded functions consume.  `authQuery` returns
`some errorMessage` on denial and `none` when access is granted, mirroring
`AuthQuery(userId, groupId, action) error`. -/
structure Ctx where
  lang : String
  defaultLang : String
  authQuery : Nat → Nat → RightAction → Option String
  adders : List (DataBag → DataBag)

/-- The observable outcome of one handler invocation: exactly one
constructor per invocation, reifying "render a template" versus "issue an
HTTP redirect". -/
inductive HandlerEffect where
  | render (status : Nat) (tmpl : String) (data : DataBag)
  | redirect (status : Nat) (target : String)

/-- `Redirecter = func(*gin.Context) string` -/
abbrev Redirecter := Ctx → String

/-- `TemplateRedirecter = func(gin.H, *gin.Context) (string, string)`; the Go
function mutates the `gin.H` bag in place, so its embedding also returns the
updated bag. -/
abbrev TemplateRedirecter := DataBag → Ctx → (String × String) × DataBag

/-- `CreateRedirect`: wrap a target-producing function into a handler that
always redirects, normalizing an empty target. -/
def createRedirect (redirecter : Redirecter) (c : Ctx) : HandlerEffect :=
  .redirect statusFound (checkTarget (redirecter c))

/-- `CreateRedirectString`: the target is normalized once at creation. -/
def createRedirectString (target : String) (_c : Ctx) : HandlerEffect :=
  .redirect statusFound (checkTarget target)

/-- Modelled from the spec: `initData` is not among the provided source
files; per §4.4 it "initializes the data bag by invoking, in registration
order, every process-wide default-data adder".  A `DataAdder` is
`func(gin.H, *gin.Context)`; its embedding is `DataBag → DataBag`, each adder
being already closed over the request context. -/
def initData (c : Ctx) : DataBag :=
  c.adders.foldl (fun d a => a d) []

/-- `CreateTemplate`: run the default-data adders, call the wrapped function,
then either redirect (non-empty redirect target) or render the returned
template with the accumulated bag.  The tracing span opened and closed around
the body is not observable here. -/
def createTemplate (redirecter : TemplateRedirecter) (c : Ctx) : HandlerEffect :=
  let data := initData c
  let r := redirecter data c
  if r.1.2 = "" then .render statusOK r.1.1 r.2
  else .redirect statusFound r.1.2

/-! ## Static-widget localized template (`localizedTmpl`) -/

/-- Modelled from the spec: `common.DefaultErrorRedirect` is not among the
provided source files; per §6 it maps "an error identifier to a user-facing
redirect destination (typically an error page with the message embedded as a
query parameter)". -/
def defaultErrorRedirect (errorKey : String) : String :=
  "/error?msg=" ++ errorKey

/-- The key under which the session user id is stored in the data bag
(`common.IdName`; its literal value is not in the provided sources and no
claim depends on it). -/
def idName : String := "Id"

/-- `data[common.IdName].(uint64)`: a failed type assertion with the
two-result form yields the zero value. -/
def lookupNat (data : DataBag) (key : String) : Nat :=
  match data.lookup key with
  | some (.nat n) => n
  | _ => 0

/-- `localizedTmpl(groupId, tmpl)`: authorize the session user for the access
action on `groupId`; on denial redirect via `DefaultErrorRedirect`; otherwise
return `tmpl`, prefixed with `lang + "/"` when the active locale differs from
the default one.  (The `logger.Info` call in the alternative-locale branch is
unobservable logging.) -/
def localizedTmpl (groupId : Nat) (tmpl : String) : TemplateRedirecter :=
  fun data c =>
    let userId := lookupNat data idName
    match c.authQuery userId groupId .access with
    | some errMsg => (("", defaultErrorRedirect errMsg), data)
    | none =>
      if c.lang ≠ c.defaultLang then ((c.lang ++ "/" ++ tmpl, ""), data)
      else ((tmpl, ""), data)

/-! ## Pagination (`common/common.go`) -/

/-- Numeric value of a digit string (most significant digit first). -/
def digitsToNat (l : List Char) : Nat :=
  l.foldl (fun acc c => acc * 10 + (c.toNat - '0'.toNat)) 0

/-- `s` is a well-formed base-10 numeral for `strconv.ParseUint(s, 10, 64)`:
nonempty and made of decimal digits only (no sign prefix is permitted). -/
def isNumeral (s : String) : Bool :=
  !s.data.isEmpty && s.data.all Char.isDigit

/-- The value used after `v, _ := strconv.ParseUint(s, 10, 64)`: `0` when the
parse fails syntactically (including the absent-parameter case `s = ""`), the
numeric value when it fits in 64 bits, and `2^64 - 1` when the numeral
overflows (Go returns the maximum magnitude together with `ErrRange`, and the
error is discarded). -/
def goParseUint64 (s : String) : Nat :=
  if isNumeral s then min (digitsToNat s.data) (2 ^ 64 - 1) else 0

/-- `GetPagination(defaultPageSize, c)`: query parameters are embedded as the
strings returned by `c.Query` (the empty string when absent).  Returns
`(pageNumber, start, end, filter)` with `uint64` (wrap-around) arithmetic. -/
def getPagination (defaultPageSize : Nat) (pageNumberQ pageSizeQ filterQ : String) :
    Nat × Nat × Nat × String :=
  let pn := goParseUint64 pageNumberQ
  let pageNumber := if pn = 0 then 1 else pn
  let ps := goParseUint64 pageSizeQ
  let pageSize := if ps = 0 then defaultPageSize else ps
  let start := (pageNumber - 1) * pageSize % 2 ^ 64
  let stop := (start + pageSize) % 2 ^ 64
  (pageNumber, start, stop, filterQ)

/-! ## The page tree

`Page{name, visible, Widget}` owns children through its Widget.  The Widget
interface has three relevant shapes: `nil` (a bare `MakePage` result), the
built-in `*staticWidget` (whose `displayHandler` is
`CreateTemplate(localizedTmpl(groupId, tmpl))`, embedded here by recording
`groupId` and `tmpl`), and the opaque feature widgets (blog, wiki, admin,
settings), embedded as an uninterpreted tag. -/

mutual
inductive Widget where
  | nil
  | static (groupId : Nat) (tmpl : String) (subPages : List Page)
  | feature (tag : Nat)
inductive Page where
  | mk (name : String) (visible : Bool) (widget : Widget)
end

def Page.name : Page → String
  | .mk n _ _ => n

def Page.visible : Page → Bool
  | .mk _ v _ => v

def Page.widget : Page → Widget
  | .mk _ _ w => w

def Widget.isStatic : Widget → Bool
  | .static _ _ _ => true
  | _ => false

/-- `MakePage(name)`: a visible page with a nil Widget. -/
def makePage (name : String) : Page :=
  .mk name true .nil

/-- `MakeHiddenPage(name)` -/
def makeHiddenPage (name : String) : Page :=
  .mk name false .nil

/-- `MakeStaticPage(tracer, name, groupId, tmpl)`: a visible page whose
Widget is a fresh `staticWidget` with no sub-pages. -/
def makeStaticPage (name : String) (groupId : Nat) (tmpl : String) : Page :=
  .mk name true (.static groupId tmpl [])

/-- `AddSubPage`: append `child` to the parent's `staticWidget.subPages`;
the type assertion `p.Widget.(*staticWidget)` fails silently for any other
Widget, leaving the tree unchanged (and the function has no error result). -/
def addSubPage (p : Page) (child : Page) : Page :=
  match p with
  | .mk name visible (.static groupId tmpl subs) =>
    .mk name visible (.static groupId tmpl (subs ++ [child]))
  | _ => p

/-- The lookup loop of `GetSubPage`: first direct child with the given name. -/
def findSubPage (name : String) : List Page → Option Page
  | [] => none
  | q :: t => if q.name = name then some q else findSubPage name t

/-- `GetSubPage(name)`: fails on an empty name or a non-static Widget,
otherwise scans the direct children for an exact name match.
(`(Page, bool)` with `ok = false` is embedded as `Option`.) -/
def getSubPage (p : Page) (name : String) : Option Page :=
  if name = "" then none
  else
    match p.widget with
    | .static _ _ subs => findSubPage name subs
    | _ => none

/-- `strings.Split` on the separator `'/'` (Go semantics: `Split("", "/")`
is `[""]`, adjacent separators produce empty segments, the result is never
the empty list). -/
def splitSlashChars : List Char → List (List Char)
  | [] => [[]]
  | c :: t =>
    if c = '/' then [] :: splitSlashChars t
    else
      match splitSlashChars t with
      | [] => [[c]]
      | h :: r => (c :: h) :: r

def goSplitSlash (s : String) : List String :=
  (splitSlashChars s.data).map List.asString

/-- The walk of `extractSubPageFromPath` over `splitted[:last]`: follow
matching children, stop (`break`) at the first unmatched segment. -/
def walkPages : Page → List String → Page
  | current, [] => current
  | current, name :: rest =>
    match getSubPage current name with
    | some sub => walkPages sub rest
    | none => current

/-- `extractSubPageFromPath(path)`: split on `'/'`, walk over all segments
but the last, and return the node reached together with the last segment.
(`splitted` is never empty, so Go's `splitted[last]` cannot panic; the
`getLastD` default is unreachable.) -/
def extractSubPageFromPath (current : Page) (path : String) : Page × String :=
  let splitted := goSplitSlash path
  (walkPages current (splitted.take (splitted.length - 1)), splitted.getLastD "")

/-- Index of the first direct child with the given name (same scan order as
`findSubPage`). -/
def findPageIdx (name : String) : List Page → Option Nat
  | [] => none
  | q :: t => if q.name = name then some 0 else (findPageIdx name t).map (· + 1)

/-- The combination `currentPage, name := p.extractSubPageFromPath(path);
currentPage.AddSubPage(child)` mutates the tree through the shared
`*staticWidget` pointer of the node the walk stopped at.  Its functional
embedding rebuilds the tree along the walked path: follow the same
first-match lookup as `getSubPage`/`walkPages` and append `child` (via
`addSubPage`, hence a no-op on a non-static node) at the node where the walk
ends. -/
def insertAtWalk : List String → Page → Page → Page
  | [], p, child => addSubPage p child
  | name :: rest, p, child =>
    match p with
    | .mk nm vis (.static groupId tmpl subs) =>
      if name = "" then addSubPage (Page.mk nm vis (.static groupId tmpl subs)) child
      else
        match findPageIdx name subs with
        | some i =>
          match subs[i]? with
          | some q =>
            Page.mk nm vis (.static groupId tmpl (subs.set i (insertAtWalk rest q child)))
          | none => addSubPage (Page.mk nm vis (.static groupId tmpl subs)) child
        | none => addSubPage (Page.mk nm vis (.static groupId tmpl subs)) child
    | _ => addSubPage p child

/-! ## Filesystem-driven page discovery (`AddStaticPagesFromFolder`) -/

/-- One entry visited by `filepath.WalkDir`: `innerPath` is `path[inSize:]`,
the visited path relative to the templates directory (so it starts with the
walked folder's name), and `isDir` tells a directory from a file. -/
structure WalkEntry where
  innerPath : String
  isDir : Bool

/-- Go byte slicing `s[a:]` on ASCII strings. -/
def strFrom (a : Nat) (s : String) : String :=
  List.asString (s.data.drop a)

/-- Go byte slicing `s[a:b]` on ASCII strings. -/
def strSlice (a b : Nat) (s : String) : String :=
  List.asString ((s.data.take b).drop a)

/-- The body of the `WalkDir` callback for one visited entry, acting on the
tree rooted at `p`.  `folderSize = len(folderName) + 1`.  A directory entry
produces a static page using its `index` template unless it is the walked
folder itself (`len(innerPath) > folderSize` fails); a file entry produces a
static page when its name ends with the template extension and its final
path segment, extension stripped, is not exactly `index`.  Two slice
expressions of the Go callback can panic and are modelled as `none`:
`innerPath[cut:]` when the visited file path is shorter than the extension
(`cut` is negative), and `innerPath[folderSize:cut]` when `cut < folderSize`
(inverted slice bounds). -/
def walkStep (folderSize : Nat) (templateExt : String) (groupId : Nat)
    (p : Page) (e : WalkEntry) : Option Page :=
  if e.isDir then
    if folderSize < e.innerPath.length then
      let splitted := goSplitSlash (strFrom folderSize e.innerPath)
      some (insertAtWalk (splitted.take (splitted.length - 1)) p
        (makeStaticPage (splitted.getLastD "") groupId
          (e.innerPath ++ "/index" ++ templateExt)))
    else some p
  else
    if templateExt.length ≤ e.innerPath.length then
      let cut := e.innerPath.length - templateExt.length
      if strFrom cut e.innerPath = templateExt then
        if folderSize ≤ cut then
          let splitted := goSplitSlash (strSlice folderSize cut e.innerPath)
          if splitted.getLastD "" = "index" then some p
          else
            some (insertAtWalk (splitted.take (splitted.length - 1)) p
              (makeStaticPage (splitted.getLastD "") groupId e.innerPath))
        else none
      else some p
    else none

/-- `AddStaticPagesFromFolder` restricted to its walk: fold the callback over
the entries visited by `filepath.WalkDir` (root first, then lexical order);
a panicking callback aborts the whole walk (`none`).  Path normalization of
`templatesPath` and the fatal handling of filesystem errors happen outside
this model. -/
def addStaticPagesFromFolder (p : Page) (groupId : Nat) (folderName : String)
    (templateExt : String) (entries : List WalkEntry) : Option Page :=
  entries.foldlM (fun q e => walkStep (folderName.length + 1) templateExt groupId q e) p

/-- Strict chain lookup: follow `getSubPage` through every segment of the
list, failing if any lookup fails (used to state what a fully matched prefix
of a path is). -/
def chainLookup : Page → List String → Option Page
  | p, [] => some p
  | p, name :: rest => (getSubPage p name).bind fun q => chainLookup q rest

/-! ## Concrete fixtures for witnesses -/

/-- A request context with active locale `fr`, default locale `en`, and an
authorization service that always grants access. -/
def frCtx : Ctx := ⟨"fr", "en", fun _ _ _ => none, []⟩

/-- A request context with active locale `en` equal to the default. -/
def enCtx : Ctx := ⟨"en", "en", fun _ _ _ => none, []⟩

/-- A request context whose authorization service always denies access with
the error message `denied`. -/
def deniedCtx : Ctx := ⟨"en", "en", fun _ _ _ => some "denied", []⟩

/-- A small concrete page tree: `root` → `a` → `b`, all static. -/
def pageB : Page := Page.mk "b" true (.static 1 "a/b.html" [])

def pageA : Page := Page.mk "a" true (.static 1 "a/index.html" [pageB])

def demoTree : Page := Page.mk "root" true (.static 1 "index.html" [pageA])

/-- A query parameter is absent (`c.Query` yields `""`), not a decimal
numeral, or has numeric value zero — the cases the pagination claim calls
"absent, unparsable, or zero". -/
def BadParam (s : String) : Prop :=
  s = "" ∨ isNumeral s = false ∨ digitsToNat s.data = 0

/-! ## Theorems -/

theorem badParam_parse_zero (s : String) (h : BadParam s) : goParseUint64 s = 0 := by
  rcases h with rfl | h | h
  · rfl
  · simp [goParseUint64, h]
  · simp [goParseUint64, h]

theorem defaultErrorRedirect_ne_empty (m : String) : defaultErrorRedirect m ≠ "" := by
  obtain ⟨l⟩ := m
  intro h
  have h2 : ('/' :: 'e' :: 'r' :: 'r' :: 'o' :: 'r' :: '?' :: 'm' :: 's' :: 'g' :: '=' :: l)
      = ([] : List Char) := congrArg String.data h
  exact List.noConfusion h2

/-- C1: a handler produced by `CreateTemplate` performs exactly one of
{render, redirect}: a non-empty redirect target from the wrapped function
yields an HTTP redirect to that target and no rendering; an empty redirect
target yields a render of the returned template with the accumulated data
bag and a success status; never both and never neither. -/
theorem createTemplate_exactly_one_effect (f : TemplateRedirecter) (c : Ctx) :
    ((f (initData c) c).1.2 ≠ "" →
      createTemplate f c = .redirect statusFound (f (initData c) c).1.2 ∧
      ∀ s t d, createTemplate f c ≠ .render s t d) ∧
    ((f (initData c) c).1.2 = "" →
      createTemplate f c = .render statusOK (f (initData c) c).1.1 (f (initData c) c).2 ∧
      ∀ s t, createTemplate f c ≠ .redirect s t) := by
  have hr : createTemplate f c =
      (if (f (initData c) c).1.2 = "" then
        HandlerEffect.render statusOK (f (initData c) c).1.1 (f (initData c) c).2
      else HandlerEffect.redirect statusFound (f (initData c) c).1.2) := rfl
  constructor
  · intro h
    rw [hr, if_neg h]
    exact ⟨rfl, fun s t d hc => HandlerEffect.noConfusion hc⟩
  · intro h
    rw [hr, if_pos h]
    exact ⟨rfl, fun s t hc => HandlerEffect.noConfusion hc⟩

/-- C1 witness: a wrapped function returning `("", "/error?x")` redirects to
`/error?x`; one returning `("tmpl", "")` renders `tmpl`. -/
theorem createTemplate_exactly_one_effect_witness :
    createTemplate (fun d _ => (("", "/error?x"), d)) enCtx
      = .redirect statusFound "/error?x" ∧
    createTemplate (fun d _ => (("tmpl", ""), d)) enCtx
      = .render statusOK "tmpl" [] :=
  ⟨((createTemplate_exactly_one_effect (fun d _ => (("", "/error?x"), d)) enCtx).1
      (by decide)).1,
   ((createTemplate_exactly_one_effect (fun d _ => (("tmpl", ""), d)) enCtx).2 rfl).1⟩

/-- C2: when the authorization query succeeds, `localizedTmpl` returns the
template prefixed with `<lang>/` (and an empty redirect) if the active
locale differs from the default, and the template unchanged (and an empty
redirect) otherwise. -/
theorem localizedTmpl_locale_prefixing (groupId : Nat) (tmpl : String)
    (data : DataBag) (c : Ctx)
    (hauth : c.authQuery (lookupNat data idName) groupId .access = none) :
    (c.lang ≠ c.defaultLang →
      localizedTmpl groupId tmpl data c = ((c.lang ++ "/" ++ tmpl, ""), data)) ∧
    (c.lang = c.defaultLang →
      localizedTmpl groupId tmpl data c = ((tmpl, ""), data)) := by
  constructor <;> intro h <;> simp [localizedTmpl, hauth, h]

/-- C2 witness: with default locale `en`, active locale `fr` and template
`list`, `localizedTmpl` yields `fr/list`; with active locale `en` it yields
`list` unchanged. -/
theorem localizedTmpl_locale_prefixing_witness :
    localizedTmpl 5 "list" [] frCtx = (("fr/list", ""), []) ∧
    localizedTmpl 5 "list" [] enCtx = (("list", ""), []) :=
  ⟨(localizedTmpl_locale_prefixing 5 "list" [] frCtx rfl).1 (by decide),
   (localizedTmpl_locale_prefixing 5 "list" [] enCtx rfl).2 rfl⟩

/-- C5: when the authorization query fails with an error, `localizedTmpl`
returns an empty template name together with a redirect to the destination
produced by the default-error-redirect collaborator keyed by the error's
string; through `CreateTemplate` the denial becomes an HTTP redirect (status
302), never a render (in particular never a 5xx response). -/
theorem localizedTmpl_auth_denied (groupId : Nat) (tmpl errMsg : String) (c : Ctx)
    (hauth : c.authQuery (lookupNat (initData c) idName) groupId .access = some errMsg) :
    localizedTmpl groupId tmpl (initData c) c
      = (("", defaultErrorRedirect errMsg), initData c) ∧
    createTemplate (localizedTmpl groupId tmpl) c
      = .redirect statusFound (defaultErrorRedirect errMsg) ∧
    ∀ s t d, createTemplate (localizedTmpl groupId tmpl) c ≠ .render s t d := by
  have h1 : localizedTmpl groupId tmpl (initData c) c
      = (("", defaultErrorRedirect errMsg), initData c) := by
    simp [localizedTmpl, hauth]
  have h2 : createTemplate (localizedTmpl groupId tmpl) c
      = .redirect statusFound (defaultErrorRedirect errMsg) := by
    have hr : createTemplate (localizedTmpl groupId tmpl) c =
        (if (localizedTmpl groupId tmpl (initData c) c).1.2 = "" then
          HandlerEffect.render statusOK (localizedTmpl groupId tmpl (initData c) c).1.1
            (localizedTmpl groupId tmpl (initData c) c).2
        else HandlerEffect.redirect statusFound
          (localizedTmpl groupId tmpl (initData c) c).1.2) := rfl
    rw [hr, h1]
    exact if_neg (defaultErrorRedirect_ne_empty errMsg)
  exact ⟨h1, h2, fun s t d hc => HandlerEffect.noConfusion (h2 ▸ hc)⟩

/-- C5 witness: an always-denying authorization service with message
`denied` produces the error redirect `/error?msg=denied`. -/
theorem localizedTmpl_auth_denied_witness :
    localizedTmpl 3 "tmpl" [] deniedCtx = (("", "/error?msg=denied"), []) ∧
    createTemplate (localizedTmpl 3 "tmpl") deniedCtx
      = .redirect statusFound "/error?msg=denied" :=
  ⟨(localizedTmpl_auth_denied 3 "tmpl" "denied" deniedCtx rfl).1,
   (localizedTmpl_auth_denied 3 "tmpl" "denied" deniedCtx rfl).2.1⟩

/-- C6: `AddSubPage` is a no-op when the parent's Widget is not the static
variant: the page (and hence the tree containing it) is unchanged, and the
function has no error result to raise. -/
theorem addSubPage_noop_nonstatic (p child : Page) (h : p.widget.isStatic = false) :
    addSubPage p child = p := by
  obtain ⟨n, v, w⟩ := p
  cases w with
  | nil => rfl
  | static g t s => exact absurd h (by simp [Page.widget, Widget.isStatic])
  | feature tag => rfl

/-- C6 witness: adding a child under a feature-widget page leaves it
unchanged. -/
theorem addSubPage_noop_nonstatic_witness :
    addSubPage (Page.mk "blog" true (.feature 0)) (makePage "x")
      = Page.mk "blog" true (.feature 0) :=
  addSubPage_noop_nonstatic (Page.mk "blog" true (.feature 0)) (makePage "x") rfl

/-- C7: a handler produced by `CreateRedirect` (or `CreateRedirectString`)
whose produced target is empty redirects to the fixed default target `/`
(the site root) rather than an empty location, using the temporary-redirect
status 302 (`http.StatusFound`). -/
theorem createRedirect_empty_target_default (f : Redirecter) (c : Ctx) (h : f c = "") :
    createRedirect f c = .redirect statusFound "/" ∧
    createRedirectString "" c = .redirect statusFound "/" ∧
    statusFound = 302 := by
  refine ⟨?_, rfl, rfl⟩
  simp [createRedirect, checkTarget, h]

/-- C7 witness: the constant-empty redirecter goes to `/`. -/
theorem createRedirect_empty_target_default_witness :
    createRedirect (fun _ => "") enCtx = .redirect statusFound "/" :=
  (createRedirect_empty_target_default (fun _ => "") enCtx rfl).1

/-- C10: `GetPagination` returns a page number of at least 1 (substituting 1
whenever the `pageNumber` parameter is absent, unparsable as a decimal
numeral, or zero), uses a page size equal to `defaultPageSize` whenever the
`pageSize` parameter is absent, unparsable, or zero, and computes
`start = (pageNumber - 1) * pageSize` and `end = start + pageSize` in
wrap-around arithmetic modulo `2 ^ 64`. -/
theorem getPagination_spec (d : Nat) (pn ps f : String) :
    1 ≤ (getPagination d pn ps f).1 ∧
    (BadParam pn → (getPagination d pn ps f).1 = 1) ∧
    ∃ size, (BadParam ps → size = d) ∧
      (getPagination d pn ps f).2.1 = ((getPagination d pn ps f).1 - 1) * size % 2 ^ 64 ∧
      (getPagination d pn ps f).2.2.1
        = ((getPagination d pn ps f).2.1 + size) % 2 ^ 64 := by
  refine ⟨?_, ?_, if goParseUint64 ps = 0 then d else goParseUint64 ps, ?_, ?_, ?_⟩
  · show 1 ≤ (if goParseUint64 pn = 0 then 1 else goParseUint64 pn)
    split
    · exact le_refl 1
    · omega
  · intro h
    show (if goParseUint64 pn = 0 then 1 else goParseUint64 pn) = 1
    rw [if_pos (badParam_parse_zero pn h)]
  · intro h
    rw [if_pos (badParam_parse_zero ps h)]
  · rfl
  · rfl

/-- The walk of `extractSubPageFromPath` follows a maximal chain of
successful child lookups: there is a `k` such that the first `k` segments
all match (`chainLookup`), the walk ends on the node so reached, and the
`k`-th segment (when one exists) does not match any child of that node. -/
theorem walkPages_greedy (segs : List String) :
    ∀ p : Page, ∃ k q, k ≤ segs.length ∧
      chainLookup p (segs.take k) = some q ∧
      walkPages p segs = q ∧
      ∀ seg, segs[k]? = some seg → getSubPage q seg = none := by
  induction segs with
  | nil =>
    intro p
    exact ⟨0, p, le_refl 0, rfl, rfl, fun seg hseg => by simp at hseg⟩
  | cons n rest ih =>
    intro p
    cases hs : getSubPage p n with
    | none =>
      refine ⟨0, p, Nat.zero_le _, rfl, by simp [walkPages, hs], ?_⟩
      intro seg hseg
      simp at hseg
      exact hseg ▸ hs
    | some sub =>
      obtain ⟨k, q, hk, hchain, hwalk, hstop⟩ := ih sub
      refine ⟨k + 1, q, Nat.succ_le_succ hk, ?_, ?_, ?_⟩
      · simp [chainLookup, hs, hchain]
      · simp [walkPages, hs, hwalk]
      · intro seg hseg
        simp at hseg
        exact hstop seg hseg

/-- C4: `extractSubPageFromPath` splits the path on `/`, matches consecutive
segments greedily by exact-name child lookup while matches exist, stops at
the first unmatched segment, and returns the deepest matched node together
with the last path segment (which is never itself looked up, so it is
returned even when it matches no child). -/
theorem extractSubPageFromPath_greedy (p : Page) (path : String) :
    ∃ k q, k ≤ (goSplitSlash path).length - 1 ∧
      chainLookup p ((goSplitSlash path).take k) = some q ∧
      extractSubPageFromPath p path = (q, (goSplitSlash path).getLastD "") ∧
      ∀ seg, k < (goSplitSlash path).length - 1 →
        (goSplitSlash path)[k]? = some seg → getSubPage q seg = none := by
  obtain ⟨k, q, hk, hchain, hwalk, hstop⟩ :=
    walkPages_greedy ((goSplitSlash path).take ((goSplitSlash path).length - 1)) p
  have hlen : ((goSplitSlash path).take ((goSplitSlash path).length - 1)).length
      = (goSplitSlash path).length - 1 := by
    rw [List.length_take]
    omega
  rw [hlen] at hk
  refine ⟨k, q, hk, ?_, ?_, ?_⟩
  · rw [List.take_take, min_eq_left hk] at hchain
    exact hchain
  · show (walkPages p ((goSplitSlash path).take ((goSplitSlash path).length - 1)),
        (goSplitSlash path).getLastD "") = (q, (goSplitSlash path).getLastD "")
    rw [hwalk]
  · intro seg hklt hseg
    refine hstop seg ?_
    rw [List.getElem?_take_of_lt hklt]
    exact hseg

/-- C4 witness: in the tree `root → a → b`, the path `a/x/tail` matches `a`,
stops at the unmatched segment `x`, and returns the node `a` with the last
segment `tail` (which was never looked up). -/
theorem extractSubPageFromPath_greedy_witness :
    (∃ k q, k ≤ (goSplitSlash "a/x/tail").length - 1 ∧
      chainLookup demoTree ((goSplitSlash "a/x/tail").take k) = some q ∧
      extractSubPageFromPath demoTree "a/x/tail"
        = (q, (goSplitSlash "a/x/tail").getLastD "") ∧
      ∀ seg, k < (goSplitSlash "a/x/tail").length - 1 →
        (goSplitSlash "a/x/tail")[k]? = some seg → getSubPage q seg = none) ∧
    extractSubPageFromPath demoTree "a/x/tail" = (pageA, "tail") :=
  ⟨extractSubPageFromPath_greedy demoTree "a/x/tail", rfl⟩

theorem addSubPage_name (p child : Page) : (addSubPage p child).name = p.name := by
  obtain ⟨n, v, w⟩ := p
  cases w <;> rfl

theorem insertAtWalk_name : ∀ (segs : List String) (p child : Page),
    (insertAtWalk segs p child).name = p.name := by
  intro segs
  induction segs with
  | nil => intro p child; exact addSubPage_name p child
  | cons n rest _ =>
    intro p child
    obtain ⟨nm, v, w⟩ := p
    cases w with
    | nil => simp [insertAtWalk, addSubPage, Page.name]
    | feature tg => simp [insertAtWalk, addSubPage, Page.name]
    | static g t subs =>
      by_cases hn : n = ""
      · simp [insertAtWalk, hn, addSubPage, Page.name]
      · cases hidx : findPageIdx n subs with
        | none => simp [insertAtWalk, hn, hidx, addSubPage, Page.name]
        | some i =>
          cases hq : subs[i]? with
          | none => simp [insertAtWalk, hn, hidx, hq, addSubPage, Page.name]
          | some q => simp [insertAtWalk, hn, hidx, hq, Page.name]

theorem findPageIdx_none (n : String) : ∀ l : List Page,
    findPageIdx n l = none → findSubPage n l = none := by
  intro l
  induction l with
  | nil => intro _; rfl
  | cons q t ih =>
    intro h
    rw [findPageIdx] at h
    rw [findSubPage]
    by_cases hq : q.name = n
    · rw [if_pos hq] at h; exact Option.noConfusion h
    · rw [if_neg hq] at h
      rw [if_neg hq]
      apply ih
      cases hidx : findPageIdx n t with
      | none => rfl
      | some i => rw [hidx] at h; simp at h

theorem findPageIdx_some (n : String) : ∀ (l : List Page) (i : Nat),
    findPageIdx n l = some i →
    ∃ q, l[i]? = some q ∧ findSubPage n l = some q ∧ q.name = n := by
  intro l
  induction l with
  | nil => intro i h; exact Option.noConfusion h
  | cons a t ih =>
    intro i h
    rw [findPageIdx] at h
    by_cases ha : a.name = n
    · rw [if_pos ha] at h
      injection h with h
      subst h
      exact ⟨a, by simp, by rw [findSubPage, if_pos ha], ha⟩
    · rw [if_neg ha] at h
      cases hidx : findPageIdx n t with
      | none => rw [hidx] at h; exact Option.noConfusion h
      | some i0 =>
        rw [hidx] at h
        simp only [Option.map_some'] at h
        injection h with h
        obtain ⟨q, hq1, hq2, hq3⟩ := ih i0 hidx
        refine ⟨q, ?_, ?_, hq3⟩
        · rw [← h]; simpa using hq1
        · rw [findSubPage, if_neg ha]; exact hq2

theorem findSubPage_set (n : String) : ∀ (l : List Page) (i : Nat) (q x : Page),
    findPageIdx n l = some i → l[i]? = some q → x.name = n →
    findSubPage n (l.set i x) = some x := by
  intro l
  induction l with
  | nil => intro i q x h _ _; exact Option.noConfusion h
  | cons a t ih =>
    intro i q x h hget hx
    rw [findPageIdx] at h
    by_cases ha : a.name = n
    · rw [if_pos ha] at h
      injection h with h
      subst h
      rw [List.set_cons_zero, findSubPage, if_pos hx]
    · rw [if_neg ha] at h
      cases hidx : findPageIdx n t with
      | none => rw [hidx] at h; exact Option.noConfusion h
      | some i0 =>
        rw [hidx] at h
        simp only [Option.map_some'] at h
        injection h with h
        rw [← h] at hget ⊢
        rw [List.set_cons_succ, findSubPage, if_neg ha]
        exact ih i0 q x hidx (by simpa using hget) hx

theorem getSubPage_some (p : Page) (n : String) (sub : Page)
    (h : getSubPage p n = some sub) :
    n ≠ "" ∧ ∃ nm v g t subs, p = Page.mk nm v (.static g t subs) ∧
      findSubPage n subs = some sub := by
  by_cases hn : n = ""
  · rw [getSubPage, if_pos hn] at h
    exact Option.noConfusion h
  · obtain ⟨nm, v, w⟩ := p
    rw [getSubPage, if_neg hn] at h
    cases w with
    | nil => exact Option.noConfusion h
    | feature tg => exact Option.noConfusion h
    | static g t subs => exact ⟨hn, nm, v, g, t, subs, rfl, h⟩

/-- `insertAtWalk` attaches the child exactly where the greedy walk stops:
for every segment list there is a maximal matched prefix of length `k`
ending at a node `q`, and in the rebuilt tree the same `k` lookups reach
precisely `addSubPage q child` — the new page sits at the tree depth given
by the walked path. -/
theorem insertAtWalk_chain : ∀ (segs : List String) (p child : Page),
    ∃ k q, k ≤ segs.length ∧
      chainLookup p (segs.take k) = some q ∧
      walkPages p segs = q ∧
      (∀ seg, segs[k]? = some seg → getSubPage q seg = none) ∧
      chainLookup (insertAtWalk segs p child) (segs.take k)
        = some (addSubPage q child) := by
  intro segs
  induction segs with
  | nil =>
    intro p child
    exact ⟨0, p, le_refl 0, rfl, rfl, fun seg h => by simp at h, rfl⟩
  | cons n rest ih =>
    intro p child
    cases hs : getSubPage p n with
    | none =>
      have hins : insertAtWalk (n :: rest) p child = addSubPage p child := by
        obtain ⟨nm, v, w⟩ := p
        cases w with
        | nil => rfl
        | feature tg => rfl
        | static g t subs =>
          by_cases hn : n = ""
          · simp [insertAtWalk, hn]
          · have hfsp : findSubPage n subs = none := by
              rw [getSubPage, if_neg hn] at hs
              exact hs
            have hidx : findPageIdx n subs = none := by
              cases hidx : findPageIdx n subs with
              | none => rfl
              | some i =>
                obtain ⟨q, _, hq2, _⟩ := findPageIdx_some n subs i hidx
                rw [hfsp] at hq2
                exact Option.noConfusion hq2
            simp [insertAtWalk, hn, hidx]
      refine ⟨0, p, Nat.zero_le _, rfl, by simp [walkPages, hs], ?_, by rw [hins]; rfl⟩
      intro seg hseg
      simp at hseg
      exact hseg ▸ hs
    | some sub =>
      obtain ⟨hn, nm, v, g, t, subs, hp, hfsp⟩ := getSubPage_some p n sub hs
      have hex : ∃ i, findPageIdx n subs = some i ∧ subs[i]? = some sub := by
        cases hidx : findPageIdx n subs with
        | none =>
          rw [findPageIdx_none n subs hidx] at hfsp
          exact Option.noConfusion hfsp
        | some i =>
          obtain ⟨q, hq1, hq2, _⟩ := findPageIdx_some n subs i hidx
          rw [hfsp] at hq2
          injection hq2 with hq2
          exact ⟨i, rfl, hq2 ▸ hq1⟩
      obtain ⟨i, hidx, hgeti⟩ := hex
      have hsubname : sub.name = n := by
        obtain ⟨q, hq1, hq2, hq3⟩ := findPageIdx_some n subs i hidx
        rw [hfsp] at hq2
        injection hq2 with hq2
        exact hq2 ▸ hq3
      have hins : insertAtWalk (n :: rest) p child
          = Page.mk nm v (.static g t (subs.set i (insertAtWalk rest sub child))) := by
        subst hp
        simp [insertAtWalk, hn, hidx, hgeti]
      obtain ⟨k, q, hk, hchain, hwalk, hstop, hinschain⟩ := ih sub child
      refine ⟨k + 1, q, Nat.succ_le_succ hk, ?_, ?_, ?_, ?_⟩
      · simp [List.take_succ_cons, chainLookup, hs, hchain]
      · simp [walkPages, hs, hwalk]
      · intro seg hseg
        simp at hseg
        exact hstop seg hseg
      · rw [hins, List.take_succ_cons, chainLookup]
        have hgs : getSubPage
            (Page.mk nm v (.static g t (subs.set i (insertAtWalk rest sub child)))) n
            = some (insertAtWalk rest sub child) := by
          rw [getSubPage, if_neg hn]
          exact findSubPage_set n subs i sub _ hidx hgeti
            ((insertAtWalk_name rest sub child).trans hsubname)
        rw [hgs]
        simpa using hinschain

/-- C9: in the filesystem walk of `AddStaticPagesFromFolder`, (i) a
directory entry at or above the walked folder produces no page, (ii) a
template file whose final path segment with the extension stripped is
exactly `index` produces no page, (iii) every other directory becomes a
static page carrying that directory's `index` template, attached (via the
greedy walk of `extractSubPageFromPath` and `AddSubPage`) at the deepest
node matched by its relative path, (iv) likewise every other template file
becomes a static page carrying that file as template, (v) a file entry
shorter than the template extension makes the Go callback panic (modelled
`none`), and (vi) walking `static` over `static/a/index.html`,
`static/a/b.html`, `static/index.html` yields page `a` (template
`static/a/index.html`) with child `b` (template `static/a/b.html`) and
nothing for the root `index.html`. -/
theorem addStaticPagesFromFolder_spec :
    (∀ (fs : Nat) (ext : String) (gid : Nat) (p : Page) (e : WalkEntry),
      e.isDir = true → e.innerPath.length ≤ fs → walkStep fs ext gid p e = some p) ∧
    (∀ (fs : Nat) (ext : String) (gid : Nat) (p : Page) (e : WalkEntry),
      e.isDir = false → ext.length ≤ e.innerPath.length →
      fs ≤ e.innerPath.length - ext.length →
      (goSplitSlash (strSlice fs (e.innerPath.length - ext.length) e.innerPath)).getLastD ""
        = "index" →
      walkStep fs ext gid p e = some p) ∧
    (∀ (fs : Nat) (ext : String) (gid : Nat) (p : Page) (e : WalkEntry),
      e.isDir = true → fs < e.innerPath.length →
      let splitted := goSplitSlash (strFrom fs e.innerPath)
      let segs := splitted.take (splitted.length - 1)
      let child := makeStaticPage (splitted.getLastD "") gid
        (e.innerPath ++ "/index" ++ ext)
      ∃ k q, k ≤ segs.length ∧ chainLookup p (segs.take k) = some q ∧
        walkPages p segs = q ∧
        (∀ seg, segs[k]? = some seg → getSubPage q seg = none) ∧
        walkStep fs ext gid p e = some (insertAtWalk segs p child) ∧
        chainLookup (insertAtWalk segs p child) (segs.take k)
          = some (addSubPage q child)) ∧
    (∀ (fs : Nat) (ext : String) (gid : Nat) (p : Page) (e : WalkEntry),
      e.isDir = false → ext.length ≤ e.innerPath.length →
      fs ≤ e.innerPath.length - ext.length →
      strFrom (e.innerPath.length - ext.length) e.innerPath = ext →
      (goSplitSlash
        (strSlice fs (e.innerPath.length - ext.length) e.innerPath)).getLastD ""
        ≠ "index" →
      let splitted := goSplitSlash
        (strSlice fs (e.innerPath.length - ext.length) e.innerPath)
      let segs := splitted.take (splitted.length - 1)
      let child := makeStaticPage (splitted.getLastD "") gid e.innerPath
      ∃ k q, k ≤ segs.length ∧ chainLookup p (segs.take k) = some q ∧
        walkPages p segs = q ∧
        (∀ seg, segs[k]? = some seg → getSubPage q seg = none) ∧
        walkStep fs ext gid p e = some (insertAtWalk segs p child) ∧
        chainLookup (insertAtWalk segs p child) (segs.take k)
          = some (addSubPage q child)) ∧
    (∀ (fs : Nat) (ext : String) (gid : Nat) (p : Page) (e : WalkEntry),
      e.isDir = false → e.innerPath.length < ext.length →
      walkStep fs ext gid p e = none) ∧
    addStaticPagesFromFolder (makeStaticPage "root" 7 "index.html") 7 "static" ".html"
      [⟨"static", true⟩, ⟨"static/a", true⟩, ⟨"static/a/b.html", false⟩,
       ⟨"static/a/index.html", false⟩, ⟨"static/index.html", false⟩]
      = some (Page.mk "root" true (.static 7 "index.html"
          [Page.mk "a" true (.static 7 "static/a/index.html"
            [Page.mk "b" true (.static 7 "static/a/b.html" [])])])) := by
  refine ⟨?_, ?_, ?_, ?_, ?_, rfl⟩
  · intro fs ext gid p e hdir hlen
    simp [walkStep, hdir, Nat.not_lt.mpr hlen]
  · intro fs ext gid p e hdir hext hfs hidx
    rw [List.getLastD_eq_getLast?] at hidx
    by_cases hsfx : strFrom (e.innerPath.length - ext.length) e.innerPath = ext
    · simp [walkStep, hdir, hext, hfs, hsfx, hidx]
    · simp [walkStep, hdir, hext, hsfx]
  · intro fs ext gid p e hdir hlt
    obtain ⟨k, q, hk, hchain, hwalk, hstop, hic⟩ :=
      insertAtWalk_chain
        ((goSplitSlash (strFrom fs e.innerPath)).take
          ((goSplitSlash (strFrom fs e.innerPath)).length - 1)) p
        (makeStaticPage ((goSplitSlash (strFrom fs e.innerPath)).getLastD "") gid
          (e.innerPath ++ "/index" ++ ext))
    exact ⟨k, q, hk, hchain, hwalk, hstop, by simp [walkStep, hdir, hlt], hic⟩
  · intro fs ext gid p e hdir hext hfs hsfx hnidx
    obtain ⟨k, q, hk, hchain, hwalk, hstop, hic⟩ :=
      insertAtWalk_chain
        ((goSplitSlash (strSlice fs (e.innerPath.length - ext.length) e.innerPath)).take
          ((goSplitSlash
            (strSlice fs (e.innerPath.length - ext.length) e.innerPath)).length - 1)) p
        (makeStaticPage
          ((goSplitSlash
            (strSlice fs (e.innerPath.length - ext.length) e.innerPath)).getLastD "")
          gid e.innerPath)
    refine ⟨k, q, hk, hchain, hwalk, hstop, ?_, hic⟩
    rw [List.getLastD_eq_getLast?] at hnidx
    simp [walkStep, hdir, hext, hfs, hsfx, hnidx]
  · intro fs ext gid p e hdir hlt
    simp [walkStep, hdir, Nat.not_le.mpr hlt]

/-- C9 witness: at the walked folder `static` with extension `.html`, the
folder's own directory entry and a root-level `index.html` leave the tree
unchanged; the directory entry `static/a` is attached at the root (matched
prefix of length 0) as a static page with template `static/a/index.html`;
and a file entry shorter than the extension (folder `a`, file `a/b`) makes
the callback panic (`none`). -/
theorem addStaticPagesFromFolder_spec_witness :
    walkStep 7 ".html" 7 (makeStaticPage "root" 7 "index.html") ⟨"static", true⟩
      = some (makeStaticPage "root" 7 "index.html") ∧
    walkStep 7 ".html" 7 (makeStaticPage "root" 7 "index.html")
        ⟨"static/index.html", false⟩
      = some (makeStaticPage "root" 7 "index.html") ∧
    (∃ k q, k ≤ ([] : List String).length ∧
      chainLookup (makeStaticPage "root" 7 "index.html") (([] : List String).take k)
        = some q ∧
      walkPages (makeStaticPage "root" 7 "index.html") [] = q ∧
      (∀ seg, ([] : List String)[k]? = some seg → getSubPage q seg = none) ∧
      walkStep 7 ".html" 7 (makeStaticPage "root" 7 "index.html") ⟨"static/a", true⟩
        = some (insertAtWalk [] (makeStaticPage "root" 7 "index.html")
            (makeStaticPage "a" 7 ("static/a" ++ "/index" ++ ".html"))) ∧
      chainLookup (insertAtWalk [] (makeStaticPage "root" 7 "index.html")
          (makeStaticPage "a" 7 ("static/a" ++ "/index" ++ ".html"))) (([] : List String).take k)
        = some (addSubPage q (makeStaticPage "a" 7 ("static/a" ++ "/index" ++ ".html")))) ∧
    walkStep 2 ".html" 7 (makeStaticPage "root" 7 "index.html") ⟨"a/b", false⟩ = none :=
  ⟨addStaticPagesFromFolder_spec.1 7 ".html" 7 _ _ rfl (by decide),
   addStaticPagesFromFolder_spec.2.1 7 ".html" 7 _ _ rfl (by decide) (by decide) (by decide),
   addStaticPagesFromFolder_spec.2.2.1 7 ".html" 7
     (makeStaticPage "root" 7 "index.html") ⟨"static/a", true⟩ rfl (by decide),
   addStaticPagesFromFolder_spec.2.2.2.2.1 2 ".html" 7 _ _ rfl (by decide)⟩

theorem loop_exit (res : List Char) (level count i : Nat) (h : level ≤ count) :
    getBaseUrlLoop res level count i = some i := by
  cases i <;> simp [getBaseUrlLoop, h]

theorem getCurrentUrl_last (path res : List Char) (h : getCurrentUrl path = some res) :
    res ≠ [] ∧ res.getLast? = some '/' := by
  unfold getCurrentUrl at h
  cases hl : path.getLast? with
  | none => rw [hl] at h; exact Option.noConfusion h
  | some c =>
    rw [hl] at h
    simp only [] at h
    by_cases hc : c = '/'
    · rw [if_pos hc] at h
      injection h with h
      subst h
      refine ⟨?_, hc ▸ hl⟩
      intro hnil
      rw [hnil] at hl
      exact Option.noConfusion hl
    · rw [if_neg hc] at h
      injection h with h
      subst h
      exact ⟨by simp, List.getLast?_concat path⟩

theorem loop_eq_backErase (res : List Char) (level : Nat) :
    ∀ i count, i ≤ res.length → count < level →
      getBaseUrlLoop res level count i
        = (backErase (level - count) ((res.take i).reverse)).map (fun t => t.length - 1) := by
  intro i
  induction i with
  | zero =>
    intro count _ hc
    simp [getBaseUrlLoop, Nat.not_le.mpr hc, backErase]
  | succ i ih =>
    intro count hi hc
    have hilt : i < res.length := hi
    have hget : res[i]? = some res[i] := List.getElem?_eq_getElem hilt
    have htake : (res.take (i + 1)).reverse = res[i] :: (res.take i).reverse := by
      rw [List.take_succ, hget]
      simp
    have hloop : getBaseUrlLoop res level count (i + 1)
        = if res[i]? = some '/' then getBaseUrlLoop res level (count + 1) i
          else getBaseUrlLoop res level count i := by
      rw [getBaseUrlLoop, if_neg (Nat.not_le.mpr hc)]
    rw [hloop, htake, hget]
    by_cases hslash : res[i] = '/'
    · rw [if_pos (by rw [hslash]), backErase, if_pos hslash]
      by_cases hc1 : level ≤ count + 1
      · rw [loop_exit res level (count + 1) i hc1,
          if_pos (by omega : level - count ≤ 1)]
        simp [List.length_take]
        omega
      · rw [ih (count + 1) (le_of_lt hilt) (by omega),
          if_neg (by omega : ¬ level - count ≤ 1), Nat.sub_sub]
    · rw [if_neg (by simp [hslash]), backErase, if_neg hslash,
        ih count (le_of_lt hilt) hc]

theorem backErase_suffix : ∀ (level : Nat) (l t : List Char),
    backErase level l = some t → t <:+ l := by
  intro level l
  induction l generalizing level with
  | nil => intro t h; exact Option.noConfusion h
  | cons c t0 ih =>
    intro t h
    rw [backErase] at h
    by_cases hc : c = '/'
    · rw [if_pos hc] at h
      by_cases h1 : level ≤ 1
      · rw [if_pos h1] at h
        injection h with h
        exact h ▸ List.suffix_refl _
      · rw [if_neg h1] at h
        exact (ih _ _ h).trans (List.suffix_cons c t0)
    · rw [if_neg hc] at h
      exact (ih _ _ h).trans (List.suffix_cons c t0)

theorem backErase_head : ∀ (level : Nat) (l t : List Char),
    backErase level l = some t → t.head? = some '/' := by
  intro level l
  induction l generalizing level with
  | nil => intro t h; exact Option.noConfusion h
  | cons c t0 ih =>
    intro t h
    rw [backErase] at h
    by_cases hc : c = '/'
    · rw [if_pos hc] at h
      by_cases h1 : level ≤ 1
      · rw [if_pos h1] at h
        injection h with h
        rw [← h, List.head?_cons, hc]
      · rw [if_neg h1] at h
        exact ih _ _ h
    · rw [if_neg hc] at h
      exact ih _ _ h

theorem rev_pref_of_suffix {l t : List Char} (h : t <:+ l) :
    t.reverse <+: l.reverse := by
  obtain ⟨d, rfl⟩ := h
  exact ⟨d.reverse, (List.reverse_append d t).symm⟩

/-- `GetBaseUrl` with a positive erase level, expressed through the
structural backward scan `backErase` on the reversed normalized path (minus
its final, unexamined `'/'`). -/
theorem getBaseUrl_eq_backErase (level : Nat) (path res : List Char)
    (hcur : getCurrentUrl path = some res) (hl : 1 ≤ level) :
    getBaseUrl level path
      = (backErase level ((res.take (res.length - 1)).reverse)).map List.reverse := by
  unfold getBaseUrl
  rw [hcur]
  simp only [Option.some_bind]
  rw [loop_eq_backErase res level (res.length - 1) 0 (by omega) hl, Nat.sub_zero,
    Option.map_map]
  cases hbe : backErase level ((res.take (res.length - 1)).reverse) with
  | none => rfl
  | some t =>
    simp only [Option.map_some', Function.comp]
    congr 1
    have hhead : t.head? = some '/' := backErase_head _ _ _ hbe
    have htne : t ≠ [] := by
      intro hnil
      rw [hnil] at hhead
      exact Option.noConfusion hhead
    have hlen1 : t.length - 1 + 1 = t.length := by
      cases t with
      | nil => exact absurd rfl htne
      | cons a b => simp
    rw [hlen1]
    have hsuf : t <:+ (res.take (res.length - 1)).reverse := backErase_suffix _ _ _ hbe
    have hpre : t.reverse <+: res.take (res.length - 1) := by
      have h2 := rev_pref_of_suffix hsuf
      rwa [List.reverse_reverse] at h2
    obtain ⟨r, hr⟩ := hpre
    have hlen2 : t.length ≤ res.length - 1 := by
      have h3 := hsuf.length_le
      simp only [List.length_reverse, List.length_take] at h3
      omega
    calc res.take t.length
        = (res.take (res.length - 1)).take t.length := by
          rw [List.take_take, min_eq_left hlen2]
      _ = (t.reverse ++ r).take t.reverse.length := by rw [hr, List.length_reverse]
      _ = t.reverse := List.take_left _ _

/-- Every successful `GetBaseUrl` result is nonempty and ends with `'/'`. -/
theorem getBaseUrl_ends_slash (n : Nat) (path base : List Char)
    (h : getBaseUrl n path = some base) : base ≠ [] ∧ base.getLast? = some '/' := by
  cases hcur : getCurrentUrl path with
  | none =>
    rw [getBaseUrl, hcur] at h
    exact Option.noConfusion h
  | some res =>
    obtain ⟨hne, hlast⟩ := getCurrentUrl_last path res hcur
    by_cases hn : 1 ≤ n
    · rw [getBaseUrl_eq_backErase n path res hcur hn] at h
      cases hbe : backErase n ((res.take (res.length - 1)).reverse) with
      | none => rw [hbe] at h; exact Option.noConfusion h
      | some t =>
        rw [hbe] at h
        injection h with h
        have hhead : t.head? = some '/' := backErase_head _ _ _ hbe
        have htne : t ≠ [] := by
          intro hnil
          rw [hnil] at hhead
          exact Option.noConfusion hhead
        subst h
        refine ⟨by simpa using htne, ?_⟩
        rw [List.getLast?_reverse]
        exact hhead
    · have hn0 : n = 0 := by omega
      subst hn0
      rw [getBaseUrl, hcur] at h
      simp only [Option.some_bind] at h
      rw [loop_exit res 0 0 (res.length - 1) (le_refl 0)] at h
      simp only [Option.map_some'] at h
      injection h with h
      have hlen : res.length - 1 + 1 = res.length := by
        cases res with
        | nil => exact absurd rfl hne
        | cons a b => simp
      rw [hlen, List.take_length] at h
      subst h
      exact ⟨hne, hlast⟩

/-- C3 counterexample: for the request path `/a/b` (2 separators, so `n = 1`
does not exceed the separator count) the base is `/a/`, but `GetBaseUrl`
with `n = 1` applied to base + `view/123` returns `/a/view/`, not the
original base: rebuilding needs `n = 2` (erase `123` and `view`), exactly as
the blog widget's `viewHandler` does with `GetBaseUrl(2, c)`. -/
theorem getBaseUrl_roundtrip_cex :
    getBaseUrl 1 "/a/b".data = some "/a/".data ∧
    (1 : Nat) ≤ ("/a/b".data).count '/' ∧
    getBaseUrl 1 ("/a/".data ++ "view/123".data) = some "/a/view/".data ∧
    "/a/view/".data ≠ "/a/".data := by
  refine ⟨by decide, by decide, by decide, by decide⟩

/-- C3 (amended): for every request and every `n`, if
`base = GetBaseUrl(n, request)` is defined, then applying `GetBaseUrl` with
`n = 2` (not `n = 1`) to a request whose path is base + `view/123` returns
exactly the original base. -/
theorem getBaseUrl_roundtrip (n : Nat) (path base : List Char)
    (h : getBaseUrl n path = some base) :
    getBaseUrl 2 (base ++ "view/123".data) = some base := by
  obtain ⟨hne, hlast⟩ := getBaseUrl_ends_slash n path base h
  have hsd : "view/123".data = ['v', 'i', 'e', 'w', '/', '1', '2', '3'] := rfl
  rw [hsd]
  have hcur : getCurrentUrl (base ++ ['v', 'i', 'e', 'w', '/', '1', '2', '3'])
      = some (base ++ ['v', 'i', 'e', 'w', '/', '1', '2', '3'] ++ ['/']) := by
    rw [getCurrentUrl]
    rw [List.getLast?_append_of_ne_nil base (by simp)]
    rfl
  rw [getBaseUrl_eq_backErase 2 _ _ hcur (by omega)]
  have hlen : (base ++ ['v', 'i', 'e', 'w', '/', '1', '2', '3'] ++ ['/']).length - 1
      = (base ++ ['v', 'i', 'e', 'w', '/', '1', '2', '3']).length := by
    simp
  have htake : (base ++ ['v', 'i', 'e', 'w', '/', '1', '2', '3'] ++ ['/']).take
        ((base ++ ['v', 'i', 'e', 'w', '/', '1', '2', '3'] ++ ['/']).length - 1)
      = base ++ ['v', 'i', 'e', 'w', '/', '1', '2', '3'] := by
    rw [hlen]
    exact List.take_left _ _
  rw [htake]
  have hrev : (base ++ ['v', 'i', 'e', 'w', '/', '1', '2', '3']).reverse
      = '3' :: '2' :: '1' :: '/' :: 'w' :: 'e' :: 'i' :: 'v' :: base.reverse := by
    rw [List.reverse_append]
    rfl
  rw [hrev]
  have s3 : ∀ r, backErase 2 ('3' :: r) = backErase 2 r := fun r => by
    rw [backErase, if_neg (by decide)]
  have s2 : ∀ r, backErase 2 ('2' :: r) = backErase 2 r := fun r => by
    rw [backErase, if_neg (by decide)]
  have s1 : ∀ r, backErase 2 ('1' :: r) = backErase 2 r := fun r => by
    rw [backErase, if_neg (by decide)]
  have s4 : ∀ r, backErase 2 ('/' :: r) = backErase 1 r := fun r => by
    rw [backErase, if_pos rfl, if_neg (by decide : ¬ (2 : Nat) ≤ 1)]
  have sw : ∀ (a : Char) r, a ≠ '/' → backErase 1 (a :: r) = backErase 1 r :=
    fun a r ha => by rw [backErase, if_neg ha]
  rw [s3, s2, s1, s4, sw 'w' _ (by decide), sw 'e' _ (by decide),
    sw 'i' _ (by decide), sw 'v' _ (by decide)]
  have hsplit : base = base.dropLast ++ ['/'] := by
    have h1 := List.dropLast_concat_getLast hne
    have h2 : base.getLast hne = '/' := by
      have h3 := List.getLast?_eq_getLast base hne
      rw [h3] at hlast
      injection hlast
    rw [← h2]
    exact h1.symm
  have hbrev : base.reverse = '/' :: base.dropLast.reverse := by
    conv_lhs => rw [hsplit]
    rw [List.reverse_append]
    rfl
  rw [hbrev, backErase, if_pos rfl, if_pos (le_refl 1)]
  simp only [Option.map_some']
  congr 1
  rw [List.reverse_cons, List.reverse_reverse]
  exact hsplit.symm

/-- C3 witness for the amended round-trip, at the concrete base `/a/`
obtained from the request path `/a/b` with `n = 1`. -/
theorem getBaseUrl_roundtrip_witness :
    getBaseUrl 2 ("/a/".data ++ "view/123".data) = some "/a/".data :=
  getBaseUrl_roundtrip 1 "/a/b".data "/a/".data (by decide)

theorem backErase_sound : ∀ (l : List Char) (level : Nat), 1 ≤ level →
    level ≤ l.count '/' →
    ∃ t, backErase level l = some t ∧
      (l.take (l.length - t.length)).count '/' = level - 1 := by
  intro l
  induction l with
  | nil =>
    intro level h1 hc
    simp at hc
    omega
  | cons c t0 ih =>
    intro level h1 hc
    rw [List.count_cons] at hc
    by_cases hcs : c = '/'
    · by_cases hl1 : level ≤ 1
      · have hl2 : level = 1 := le_antisymm hl1 h1
        subst hl2
        refine ⟨c :: t0, ?_, ?_⟩
        · rw [backErase, if_pos hcs, if_pos (le_refl 1)]
        · simp
      · have hc0 : level - 1 ≤ t0.count '/' := by
          simp [hcs] at hc
          omega
        obtain ⟨t, hbe, hcnt⟩ := ih (level - 1) (by omega) hc0
        refine ⟨t, ?_, ?_⟩
        · rw [backErase, if_pos hcs, if_neg hl1]
          exact hbe
        · have htlen : t.length ≤ t0.length := (backErase_suffix _ _ _ hbe).length_le
          have hlen : (c :: t0).length - t.length = (t0.length - t.length) + 1 := by
            simp only [List.length_cons]
            omega
          rw [hlen, List.take_succ_cons, List.count_cons, hcnt]
          simp [hcs]
          omega
    · have hc0 : level ≤ t0.count '/' := by
        simp [hcs] at hc
        exact hc
      obtain ⟨t, hbe, hcnt⟩ := ih level h1 hc0
      refine ⟨t, ?_, ?_⟩
      · rw [backErase, if_neg hcs]
        exact hbe
      · have htlen : t.length ≤ t0.length := (backErase_suffix _ _ _ hbe).length_le
        have hlen : (c :: t0).length - t.length = (t0.length - t.length) + 1 := by
          simp only [List.length_cons]
          omega
        rw [hlen, List.take_succ_cons, List.count_cons, hcnt]
        simp [hcs]

/-- C8 counterexample: the request path `/a/`, already trailing-slash
normalized, contains 2 separators, yet `GetBaseUrl` with `levelsToErase = 2`
runs its index below 0 (an out-of-range read, modelled as `none`): the
trailing separator is never examined by the loop, so "at least
`levelsToErase` separators" is not a sufficient precondition. -/
theorem getBaseUrl_in_bounds_cex :
    getCurrentUrl "/a/".data = some "/a/".data ∧
    ("/a/".data).count '/' = 2 ∧
    getBaseUrl 2 "/a/".data = none := by
  refine ⟨by decide, by decide, by decide⟩

/-- C8 (amended): if the trailing-slash-normalized path contains at least
`levelsToErase` separators *not counting the trailing one* (for
`levelsToErase ≥ 1`; for `levelsToErase = 0` the whole normalized path is
returned), all indexing of `GetBaseUrl` stays in bounds and the result is
the prefix of the normalized path up to and including the
`levelsToErase`-th separator counted backward from the end (the trailing
separator not counted): the result ends at a separator and exactly
`levelsToErase - 1` separators lie strictly between it and the trailing
one. -/
theorem getBaseUrl_in_bounds (path res : List Char)
    (hcur : getCurrentUrl path = some res) :
    getBaseUrl 0 path = some res ∧
    ∀ level, 1 ≤ level → level ≤ (res.dropLast).count '/' →
      ∃ b, getBaseUrl level path = some b ∧ b ≠ [] ∧ b.getLast? = some '/' ∧
        b <+: res.dropLast ∧
        ((res.dropLast).drop b.length).count '/' = level - 1 := by
  obtain ⟨hne, hlast⟩ := getCurrentUrl_last path res hcur
  constructor
  · rw [getBaseUrl, hcur]
    simp only [Option.some_bind]
    rw [loop_exit res 0 0 (res.length - 1) (le_refl 0)]
    simp only [Option.map_some']
    congr 1
    have hlen : res.length - 1 + 1 = res.length := by
      cases res with
      | nil => exact absurd rfl hne
      | cons a b => simp
    rw [hlen, List.take_length]
  · intro level h1 hc
    have hdrop : res.take (res.length - 1) = res.dropLast :=
      (List.dropLast_eq_take res).symm
    have hcrev : level ≤ ((res.dropLast).reverse).count '/' := by
      rwa [List.count_reverse]
    obtain ⟨t, hbe, hcnt⟩ := backErase_sound ((res.dropLast).reverse) level h1 hcrev
    have hhead : t.head? = some '/' := backErase_head _ _ _ hbe
    have htne : t ≠ [] := by
      intro hnil
      rw [hnil] at hhead
      exact Option.noConfusion hhead
    have hsuf : t <:+ (res.dropLast).reverse := backErase_suffix _ _ _ hbe
    obtain ⟨d, hd⟩ := hsuf
    have hfull : res.dropLast = t.reverse ++ d.reverse := by
      have h2 : ((d ++ t).reverse) = (res.dropLast).reverse.reverse := by rw [hd]
      rw [List.reverse_reverse, List.reverse_append] at h2
      exact h2.symm
    refine ⟨t.reverse, ?_, by simpa using htne, ?_, ?_, ?_⟩
    · rw [getBaseUrl_eq_backErase level path res hcur h1, hdrop, hbe]
      rfl
    · rw [List.getLast?_reverse]
      exact hhead
    · exact ⟨d.reverse, hfull.symm⟩
    · have hdl : (res.dropLast).drop t.reverse.length = d.reverse := by
        rw [hfull]
        exact List.drop_left _ _
      rw [hdl, List.count_reverse]
      have hlt : ((res.dropLast).reverse).length - t.length = d.length := by
        rw [← hd]
        simp
      rw [hlt, ← hd] at hcnt
      rw [List.take_left] at hcnt
      exact hcnt

/-- C8 witness for the amended statement, at the request path `/a/b` with
`levelsToErase = 1`. -/
theorem getBaseUrl_in_bounds_witness :
    getBaseUrl 0 "/a/b".data = some "/a/b/".data ∧
    ∃ b, getBaseUrl 1 "/a/b".data = some b ∧ b ≠ [] ∧ b.getLast? = some '/' ∧
      b <+: ("/a/b/".data).dropLast ∧
      ((("/a/b/".data).dropLast).drop b.length).count '/' = 0 := by
  obtain ⟨h0, h⟩ := getBaseUrl_in_bounds "/a/b".data "/a/b/".data (by decide)
  exact ⟨h0, h 1 (by decide) (by decide)⟩

/-- C10 witness: with default page size 10, an absent `pageNumber` and a
`pageSize` of `0`, the result is page 1, start 0, end 10. -/
theorem getPagination_spec_witness :
    1 ≤ (getPagination 10 "" "0" "f").1 ∧ (getPagination 10 "" "0" "f").1 = 1 ∧
    ∃ size, size = 10 ∧
      (getPagination 10 "" "0" "f").2.1
        = ((getPagination 10 "" "0" "f").1 - 1) * size % 2 ^ 64 ∧
      (getPagination 10 "" "0" "f").2.2.1
        = ((getPagination 10 "" "0" "f").2.1 + size) % 2 ^ 64 := by
  obtain ⟨h1, h2, size, h3, h4, h5⟩ := getPagination_spec 10 "" "0" "f"
  exact ⟨h1, h2 (Or.inl rfl), size, h3 (Or.inr (Or.inr rfl)), h4, h5⟩

end PuzzleWeb
